import Mathlib

/-!
# Verification of the Hybrid Multi-Algorithm Recommendation Engine

Shallow embedding of the core of the `ml-service` recommendation engine
(`models/collaborative_filtering.py`, `models/content_based.py`,
`models/hybrid_recommender.py`) together with proofs and refutations of the
specified properties.

Modelling conventions:
* Python floats are modelled as exact rationals (`ℚ`); the specification
  explicitly disclaims bit-for-bit parity with any numerical library, so the
  contract is the mathematical behaviour of the formulas.
* The temporal decay weight uses real exponentiation, modelled over `ℝ` with
  `Real.rpow`.
* User and book identifiers are opaque strings in the source, compared only
  for equality and (in `sorted(set(...))`) by their total lexicographic order.
  They are modelled as an arbitrary type `Id` with a decidable linear order,
  instantiated with `ℕ` in concrete witnesses.
* `sklearn.metrics.pairwise.cosine_similarity` is an external library kernel;
  every property below is independent of the similarity values it returns, so
  the scoring kernel is a parameter (`sim`) of the embedded prediction
  functions.  Concrete instantiations use an executable dot-product kernel.
* Python's stable `list.sort(key=..., reverse=True)` is modelled with
  `List.insertionSort` and the reflexive "score is at least" relation: a
  stable sort by a total preorder is extensionally unique, so this is a
  faithful embedding of Timsort's observable behaviour.
* Python `dict`s preserve insertion order; they are modelled as association
  lists with in-place updates.
-/

namespace IntelligentLibrary

variable {Id : Type} [LinearOrder Id]

/-- One interaction record (`transactions` entry): user id, book id and the
`rating` weight (`transaction.get('rating', 1.0)` — the default is supplied by
the caller in this model). -/
structure Interaction (Id : Type) where
  user_id : Id
  book_id : Id
  rating : ℚ
deriving DecidableEq, Repr

/-- First index of `x` in `l`, mirroring the dictionary
`{id: idx for idx, id in enumerate(ids)}` built by
`create_interaction_matrix`: `none` models absence (the `in` guard /
cold start). -/
def idxIn [DecidableEq Id] : List Id → Id → Option Nat
  | [], _ => none
  | a :: t, x => if a = x then some 0 else (idxIn t x).map (· + 1)

/-- `sorted(set(ids))`: sorted, duplicate-free id list.  Index position in
this list is the dense index assigned by `create_interaction_matrix`. -/
def uniqueSorted (l : List Id) : List Id :=
  l.dedup.insertionSort (· ≤ ·)

/-- The sorted unique user ids of a transaction batch (`unique_users`). -/
def uniqueUsers (ts : List (Interaction Id)) : List Id :=
  uniqueSorted (ts.map (·.user_id))

/-- The sorted unique book ids of a transaction batch (`unique_items`). -/
def uniqueItems (ts : List (Interaction Id)) : List Id :=
  uniqueSorted (ts.map (·.book_id))

/-- Number of users in the interaction matrix (`n_users`). -/
def nUsers (ts : List (Interaction Id)) : Nat := (uniqueUsers ts).length

/-- Number of items in the interaction matrix (`n_items`). -/
def nItems (ts : List (Interaction Id)) : Nat := (uniqueItems ts).length

/-- Cell `(r, c)` of the interaction matrix built by
`SVDRecommender.create_interaction_matrix` and
`NMFRecommender.create_interaction_matrix` (the two methods are verbatim
copies).  The Python code collects one `(data, row, col)` triplet per
transaction and builds `csr_matrix((data, (rows, cols)), shape=...)`; scipy's
documented semantics for this constructor is that duplicate `(row, col)`
coordinates are **summed** when the matrix is materialised, so the cell value
is the sum of the ratings of all transactions mapping to that coordinate. -/
def matrixEntry (ts : List (Interaction Id)) (r c : Nat) : ℚ :=
  ((ts.filter (fun t =>
      idxIn (uniqueUsers ts) t.user_id == some r &&
      idxIn (uniqueItems ts) t.book_id == some c)).map (·.rating)).sum

/-- `n_components=min(self.n_components, min(interaction_matrix.shape) - 1)`
as computed by `SVDRecommender.fit` (line 87) and `NMFRecommender.fit`
(line 229).  Computed over `ℤ` because Python subtraction does not truncate
at zero. -/
def fitRank (n_components : ℤ) (ts : List (Interaction Id)) : ℤ :=
  min n_components (min (nUsers ts : ℤ) (nItems ts : ℤ) - 1)

/-! ## Basic lemmas about the identifier index -/

omit [LinearOrder Id] in
theorem idxIn_inj [DecidableEq Id] : ∀ (l : List Id) (a b : Id) (r : Nat),
    idxIn l a = some r → idxIn l b = some r → a = b := by
  intro l
  induction l with
  | nil => intro a b r h; simp [idxIn] at h
  | cons c t ih =>
    intro a b r ha hb
    simp only [idxIn] at ha hb
    split_ifs at ha hb with h1 h2 h2
    · exact h1 ▸ h2 ▸ rfl
    · obtain ⟨rb, hb', hrb⟩ := Option.map_eq_some'.mp hb
      have h0 : (0 : Nat) = r := by injection ha
      omega
    · obtain ⟨ra, ha', hra⟩ := Option.map_eq_some'.mp ha
      have h0 : (0 : Nat) = r := by injection hb
      omega
    · obtain ⟨ra, ha', hra⟩ := Option.map_eq_some'.mp ha
      obtain ⟨rb, hb', hrb⟩ := Option.map_eq_some'.mp hb
      have hr : ra = rb := by omega
      exact ih a b ra ha' (hr ▸ hb')

omit [LinearOrder Id] in
theorem idxIn_eq_some_of_mem [DecidableEq Id] {l : List Id} {x : Id}
    (h : x ∈ l) : ∃ r, idxIn l x = some r := by
  induction l with
  | nil => cases h
  | cons c t ih =>
    by_cases hc : c = x
    · exact ⟨0, by simp [idxIn, hc]⟩
    · obtain ⟨r, hr⟩ := ih (by cases h with
        | head => exact absurd rfl hc
        | tail _ h' => exact h')
      exact ⟨r + 1, by simp [idxIn, hc, hr]⟩

/-! ## C1: duplicate (user, item) pairs in the interaction matrix -/

/-- Claim C1 (counterexample): the claim says two interactions for the same
pair with weights 1.0 then 2.0 yield a matrix cell of 2.0; the built cell is
actually 3.0, because the `csr_matrix((data, (rows, cols)))` constructor sums
duplicate coordinates instead of overwriting. -/
theorem C1_overwrite_counterexample :
    matrixEntry [⟨0, 0, 1⟩, ⟨(0 : ℕ), (0 : ℕ), 2⟩] 0 0 = 3 ∧ (3 : ℚ) ≠ 2 := by
  constructor
  · norm_num [matrixEntry, uniqueUsers, uniqueItems, uniqueSorted, idxIn,
      List.insertionSort, List.orderedInsert]
  · norm_num

/-- Claim C1 (amended): when the same (user, item) pair appears multiple
times, the interaction matrix cell for that pair holds the **sum** of the
observed weights (scipy sums duplicate COO coordinates); in particular
weights 1.0 then 2.0 yield 3.0, not 2.0. -/
theorem C1_matrix_cell_sums_weights (ts : List (Interaction Id)) (u i : Id)
    (r c : Nat) (hu : idxIn (uniqueUsers ts) u = some r)
    (hi : idxIn (uniqueItems ts) i = some c) :
    matrixEntry ts r c =
      ((ts.filter (fun t => t.user_id = u ∧ t.book_id = i)).map (·.rating)).sum := by
  unfold matrixEntry
  congr 2
  apply List.filter_congr
  intro t _
  rw [Bool.eq_iff_iff, Bool.and_eq_true, beq_iff_eq, beq_iff_eq, decide_eq_true_eq]
  constructor
  · rintro ⟨h1, h2⟩
    exact ⟨idxIn_inj _ _ _ _ h1 hu, idxIn_inj _ _ _ _ h2 hi⟩
  · rintro ⟨h1, h2⟩
    exact ⟨h1 ▸ hu, h2 ▸ hi⟩

/-- Witness for `C1_matrix_cell_sums_weights` at the two-interaction fixture:
the cell for user 0, book 0 is the sum 1 + 2 = 3. -/
theorem C1_matrix_cell_sums_weights_witness :
    matrixEntry [⟨0, 0, 1⟩, ⟨(0 : ℕ), (0 : ℕ), 2⟩] 0 0 =
      (([⟨0, 0, (1 : ℚ)⟩, ⟨0, 0, 2⟩].filter
          (fun t : Interaction ℕ => t.user_id = 0 ∧ t.book_id = 0)).map
        (·.rating)).sum ∧
    (([⟨0, 0, (1 : ℚ)⟩, ⟨0, 0, 2⟩].filter
          (fun t : Interaction ℕ => t.user_id = 0 ∧ t.book_id = 0)).map
        (·.rating)).sum = 3 := by
  constructor
  · exact C1_matrix_cell_sums_weights _ 0 0 0 0
      (by simp [uniqueUsers, uniqueSorted, idxIn, List.insertionSort,
        List.orderedInsert])
      (by simp [uniqueItems, uniqueSorted, idxIn, List.insertionSort,
        List.orderedInsert])
  · norm_num

/-! ## C5: rank clamping in `fit` -/

/-- Claim C5 (counterexample): for a batch with a single user the interaction
matrix has a dimension of size 1, and the rank actually passed to the
decomposition is `min(50, min(1, 1) - 1) = 0`, not at least 1: the code has no
minimum-1 floor. -/
theorem C5_rank_floor_counterexample :
    fitRank 50 [⟨(0 : ℕ), (0 : ℕ), 1⟩] = 0 ∧
    ¬ (1 ≤ fitRank 50 [⟨(0 : ℕ), (0 : ℕ), 1⟩]) := by
  have h : fitRank 50 [⟨(0 : ℕ), (0 : ℕ), 1⟩] = 0 := by
    simp [fitRank, nUsers, nItems, uniqueUsers, uniqueItems, uniqueSorted,
      List.insertionSort, List.orderedInsert]
  exact ⟨h, by rw [h]; norm_num⟩

/-- Claim C5 (amended): `fit` sets the decomposition rank to
`min(k, min(n_users, n_items) - 1)` with **no** minimum-1 floor; the rank used
is at least 1 whenever the requested rank is at least 1 and both matrix
dimensions are at least 2, but it is 0 (an invalid rank) when the smaller
dimension is 1. -/
theorem C5_rank_clamp (k : ℤ) (ts : List (Interaction Id))
    (hk : 1 ≤ k) (hu : 2 ≤ nUsers ts) (hi : 2 ≤ nItems ts) :
    fitRank k ts = min k (min (nUsers ts : ℤ) (nItems ts : ℤ) - 1) ∧
    1 ≤ fitRank k ts := by
  refine ⟨rfl, ?_⟩
  unfold fitRank
  omega

/-- Witness for `C5_rank_clamp`: a batch with two users and two items and a
requested rank of 50 uses rank `min 50 (2 - 1) = 1 ≥ 1`. -/
theorem C5_rank_clamp_witness :
    fitRank 50 [⟨0, 0, 1⟩, ⟨(1 : ℕ), (1 : ℕ), 1⟩] =
      min 50 (min (nUsers [⟨0, 0, 1⟩, ⟨(1 : ℕ), (1 : ℕ), 1⟩] : ℤ)
        (nItems [⟨0, 0, 1⟩, ⟨(1 : ℕ), (1 : ℕ), 1⟩] : ℤ) - 1) ∧
    1 ≤ fitRank 50 [⟨0, 0, 1⟩, ⟨(1 : ℕ), (1 : ℕ), 1⟩] :=
  C5_rank_clamp 50 _ (by norm_num)
    (by simp [nUsers, uniqueUsers, uniqueSorted, List.insertionSort,
      List.orderedInsert])
    (by simp [nItems, uniqueItems, uniqueSorted, List.insertionSort,
      List.orderedInsert])

/-! ## C6: temporal decay weight -/

open scoped Classical in
/-- `TemporalFeatureEngine.calculate_time_weight`: exponential decay
`decay_factor ** (days_ago / 30)`, multiplied by the fixed damping factor 0.1
when `days_ago > self.window_days` (constructor defaults:
`decay_factor=0.95`, `window_days=90`).  The exponentiation is real-valued
(`Real.rpow`). -/
noncomputable def calculate_time_weight
    (decay_factor window_days days_ago : ℝ) : ℝ :=
  decay_factor ^ (days_ago / 30) * (if window_days < days_ago then 0.1 else 1)

/-- Claim C6 (confirmed): for non-negative elapsed days and a decay factor in
(0, 1], the temporal weight is positive (never zero), at most 1, monotonically
non-increasing in the elapsed days, and once the elapsed days exceed the
window it is strictly smaller than the undamped decay value
`decay_factor ^ (days/30)`.  The weight equals the damped exponential-decay
formula by definition of `calculate_time_weight`. -/
theorem C6_time_weight_decay (decay window d₁ d₂ : ℝ)
    (h0 : 0 < decay) (h1 : decay ≤ 1) (hd : 0 ≤ d₁) (h12 : d₁ ≤ d₂) :
    0 < calculate_time_weight decay window d₁ ∧
    calculate_time_weight decay window d₁ ≤ 1 ∧
    calculate_time_weight decay window d₂ ≤ calculate_time_weight decay window d₁ ∧
    (window < d₁ → calculate_time_weight decay window d₁ < decay ^ (d₁ / 30)) := by
  have hpow : ∀ d : ℝ, 0 < decay ^ (d / 30) := fun d => Real.rpow_pos_of_pos h0 _
  have hp1 : decay ^ (d₁ / 30) ≤ 1 := Real.rpow_le_one h0.le h1 (by linarith)
  have hmono : decay ^ (d₂ / 30) ≤ decay ^ (d₁ / 30) :=
    Real.rpow_le_rpow_of_exponent_ge h0 h1 (by linarith)
  unfold calculate_time_weight
  split_ifs with hw1 hw2 hw2
  · exact ⟨by nlinarith [hpow d₁], by nlinarith [hpow d₁],
      by nlinarith [hpow d₂], fun _ => by nlinarith [hpow d₁]⟩
  · exact absurd (lt_of_lt_of_le hw1 h12) hw2
  · exact ⟨by nlinarith [hpow d₁], by nlinarith [hpow d₁],
      by nlinarith [hpow d₂, hmono], fun h => absurd h hw1⟩
  · exact ⟨by nlinarith [hpow d₁], by nlinarith [hpow d₁],
      by nlinarith [hpow d₂, hmono], fun h => absurd h hw1⟩

/-- Witness for `C6_time_weight_decay` at the default configuration
(decay 0.95, window 90) with 100 and 200 elapsed days. -/
theorem C6_time_weight_decay_witness :
    0 < calculate_time_weight 0.95 90 100 ∧
    calculate_time_weight 0.95 90 100 ≤ 1 ∧
    calculate_time_weight 0.95 90 200 ≤ calculate_time_weight 0.95 90 100 ∧
    ((90 : ℝ) < 100 → calculate_time_weight 0.95 90 100 < 0.95 ^ ((100 : ℝ) / 30)) :=
  C6_time_weight_decay 0.95 90 100 200 (by norm_num) (by norm_num)
    (by norm_num) (by norm_num)

/-! ## Prediction pipeline: stable descending sort

`recommendations.sort(key=lambda x: x[1], reverse=True)` is Python's stable
Timsort by descending score.  A stable sort by a total preorder is
extensionally unique, so `List.insertionSort` with the reflexive
"score at least" relation `leRec` is a faithful model. -/

/-- Comparator of the Python sort: `a` may precede `b` iff `a`'s score is at
least `b`'s. -/
def leRec : (Id × ℚ) → (Id × ℚ) → Prop := fun a b => b.2 ≤ a.2

/-- Strict descending order with ties broken by ascending id: the order the
stable sort actually produces on an id-sorted candidate list. -/
def ltRec : (Id × ℚ) → (Id × ℚ) → Prop :=
  fun a b => b.2 < a.2 ∨ (a.2 = b.2 ∧ a.1 < b.1)

instance : DecidableRel (@leRec Id) :=
  fun a b => inferInstanceAs (Decidable (b.2 ≤ a.2))

instance : IsTotal (Id × ℚ) leRec := ⟨fun a b => le_total b.2 a.2⟩

instance : IsTrans (Id × ℚ) leRec := ⟨fun _ _ _ h1 h2 => le_trans h2 h1⟩

theorem pairwise_ltRec_orderedInsert (c : Id × ℚ) :
    ∀ l : List (Id × ℚ), l.Pairwise ltRec →
      (∀ x ∈ l, c.2 = x.2 → c.1 < x.1) →
      (l.orderedInsert leRec c).Pairwise ltRec := by
  intro l
  induction l with
  | nil =>
    intro _ _
    simp [List.orderedInsert, ltRec]
  | cons b t ih =>
    intro hl hc
    rw [List.orderedInsert]
    split_ifs with hcb
    · refine List.Pairwise.cons ?_ hl
      intro x hx
      have hcb' : b.2 ≤ c.2 := hcb
      rcases List.mem_cons.mp hx with rfl | hxt
      · rcases lt_or_eq_of_le hcb' with hlt | heq
        · exact Or.inl hlt
        · exact Or.inr ⟨heq.symm, hc x (List.mem_cons_self x t) heq.symm⟩
      · have hbx := (List.pairwise_cons.mp hl).1 x hxt
        rcases hbx with h1 | ⟨h2, h3⟩
        · exact Or.inl (lt_of_lt_of_le h1 hcb')
        · rcases lt_or_eq_of_le hcb' with hlt | heq
          · exact Or.inl (h2 ▸ hlt)
          · exact Or.inr ⟨heq.symm.trans h2,
              lt_trans (hc b (List.mem_cons_self b t) heq.symm) h3⟩
    · have hbc : c.2 < b.2 := lt_of_not_le hcb
      refine List.Pairwise.cons ?_
        (ih (List.pairwise_cons.mp hl).2
          (fun x hx hx2 => hc x (List.mem_cons_of_mem b hx) hx2))
      intro x hx
      rcases (List.mem_orderedInsert leRec).mp hx with rfl | hxt
      · exact Or.inl hbc
      · exact (List.pairwise_cons.mp hl).1 x hxt

/-- Stability: sorting an id-ascending candidate list with `leRec` yields a
list that is strictly descending by score with ties broken by ascending id
(the candidate's index order). -/
theorem pairwise_ltRec_insertionSort (l : List (Id × ℚ))
    (h : l.Pairwise (fun a b => a.1 < b.1)) :
    (l.insertionSort leRec).Pairwise ltRec := by
  induction l with
  | nil => simp [List.insertionSort]
  | cons a t ih =>
    rw [List.insertionSort]
    apply pairwise_ltRec_orderedInsert
    · exact ih (List.pairwise_cons.mp h).2
    · intro x hx _
      exact (List.pairwise_cons.mp h).1 x ((List.mem_insertionSort leRec).mp hx)

theorem pairwise_fst_zip (l : List Id) (s : List ℚ)
    (h : l.Pairwise (· < ·)) :
    (l.zip s).Pairwise (fun a b : Id × ℚ => a.1 < b.1) := by
  induction l generalizing s with
  | nil => simp
  | cons a t ih =>
    cases s with
    | nil => simp
    | cons q qs =>
      rw [List.zip_cons_cons]
      refine List.Pairwise.cons ?_ (ih qs (List.pairwise_cons.mp h).2)
      intro x hx
      exact (List.pairwise_cons.mp h).1 x.1 (List.of_mem_zip hx).1

/-- `sorted(set(...))` produces a strictly increasing id list. -/
theorem uniqueSorted_pairwise_lt (l : List Id) :
    (uniqueSorted l).Pairwise (· < ·) := by
  have hs : (uniqueSorted l).Sorted (· ≤ ·) := List.sorted_insertionSort _ _
  exact hs.lt_of_le ((List.perm_insertionSort _ _).symm.nodup (List.nodup_dedup l))

/-! ## Latent factor models (SVD / NMF) -/

/-- Trained state of a latent factor model (`SVDRecommender` after `fit`;
`NMFRecommender` is identical with `user_features`/`item_features`).
`user_id_map` is the sorted unique user list (position = dense index);
`item_idx_map` is the reverse item mapping (dense index → item id). -/
structure FactorModel (Id : Type) where
  user_id_map : List Id
  item_idx_map : List Id
  user_factors : List (List ℚ)
  item_factors : List (List ℚ)

/-- `SVDRecommender.predict` / `NMFRecommender.predict` (the two methods are
verbatim copies): return `[]` for a user missing from `user_id_map`
(cold start), otherwise score every item with the similarity kernel `sim`
(`cosine_similarity` in the source — an external library kernel, abstracted
here), drop items in `exclude_items`, sort by descending score with Python's
stable sort, and keep the first `n_recommendations`. -/
def FactorModel.predict (sim : List ℚ → List ℚ → ℚ) (m : FactorModel Id)
    (user_id : Id) (n_recommendations : Nat) (exclude_items : List Id) :
    List (Id × ℚ) :=
  match idxIn m.user_id_map user_id with
  | none => []
  | some user_idx =>
    let user_vector := m.user_factors.getD user_idx []
    let scores := m.item_factors.map (sim user_vector)
    let recommendations :=
      (m.item_idx_map.zip scores).filter (fun p => decide (p.1 ∉ exclude_items))
    (recommendations.insertionSort leRec).take n_recommendations

/-- Executable similarity kernel used to instantiate witnesses (stands in for
the external `cosine_similarity`; the verified properties hold for every
kernel). -/
def dotSim (v w : List ℚ) : ℚ := (List.zipWith (· * ·) v w).sum

/-- Claim C2 (confirmed): for every trained factor model (SVD or NMF — the two
`predict` methods are identical), every similarity kernel, every user present
in training, every `n` and every exclude set, `predict` returns at most `n`
pairs, none of whose ids is excluded, in descending score order with ties
broken by the item's index order.  Since `item_idx_map` lists the items in
index order and is strictly increasing (it comes from `sorted(set(...))`),
the tie-break is expressed as ascending id order (`ltRec`). -/
theorem C2_predict_ranked (sim : List ℚ → List ℚ → ℚ) (m : FactorModel Id)
    (hm : m.item_idx_map.Pairwise (· < ·)) (u : Id) (n : Nat)
    (exclude : List Id) (hu : u ∈ m.user_id_map) :
    (m.predict sim u n exclude).length ≤ n ∧
    (∀ p ∈ m.predict sim u n exclude, p.1 ∉ exclude) ∧
    (m.predict sim u n exclude).Pairwise ltRec := by
  obtain ⟨r, hr⟩ := idxIn_eq_some_of_mem hu
  simp only [FactorModel.predict, hr]
  refine ⟨List.length_take_le _ _, fun p hp => ?_, ?_⟩
  · have h1 := List.mem_of_mem_take hp
    have h2 := (List.mem_insertionSort leRec).mp h1
    exact of_decide_eq_true ((List.mem_filter.mp h2).2)
  · exact (pairwise_ltRec_insertionSort _
      ((pairwise_fst_zip _ _ hm).filter _)).sublist (List.take_sublist _ _)

/-- Witness for `C2_predict_ranked`: a trained model with one user (id 10)
and two items (ids 5 and 7), requesting 1 recommendation with item 7
excluded. -/
theorem C2_predict_ranked_witness :
    (FactorModel.predict dotSim (⟨[10], [5, 7], [[1]], [[1], [2]]⟩ :
        FactorModel ℕ) 10 1 [7]).length ≤ 1 ∧
    (∀ p ∈ FactorModel.predict dotSim (⟨[10], [5, 7], [[1]], [[1], [2]]⟩ :
        FactorModel ℕ) 10 1 [7], p.1 ∉ [7]) ∧
    (FactorModel.predict dotSim (⟨[10], [5, 7], [[1]], [[1], [2]]⟩ :
        FactorModel ℕ) 10 1 [7]).Pairwise ltRec :=
  C2_predict_ranked dotSim _ (by decide) 10 1 [7] (by decide)

/-! ## Content model (TF-IDF) and C4: cold start -/

omit [LinearOrder Id] in
theorem idxIn_eq_none [DecidableEq Id] (l : List Id) (x : Id) :
    idxIn l x = none ↔ x ∉ l := by
  induction l with
  | nil => simp [idxIn]
  | cons c t ih =>
    by_cases hc : c = x
    · simp [idxIn, hc]
    · simp [idxIn, hc, ih, Ne.symm hc]

/-- Trained state of `TFIDFRecommender`: `book_id_map` lists the book ids in
corpus insertion order (position = dense index; `book_idx_map` is its
positional inverse) and `tfidf_matrix` holds one document vector per book. -/
structure TFIDFModel (Id : Type) where
  book_id_map : List Id
  tfidf_matrix : List (List ℚ)

/-- `self.tfidf_matrix[history_indices].mean(axis=0)`: element-wise mean of
the selected document vectors. -/
def meanVec : List (List ℚ) → List ℚ
  | [] => []
  | v :: vs =>
    (vs.foldl (fun acc w => List.zipWith (· + ·) acc w) v).map
      (fun x => x / (vs.length + 1 : ℚ))

/-- `TFIDFRecommender.predict`: empty result for an empty history or a
history none of whose ids resolve in `book_id_map`; otherwise rank all books
by similarity (`sim` abstracts the external `cosine_similarity` kernel) to
the mean profile vector, excluding history items and `exclude_items`. -/
def TFIDFModel.predict (sim : List ℚ → List ℚ → ℚ) (m : TFIDFModel Id)
    (user_id : Id) (user_history : List Id) (n_recommendations : Nat)
    (exclude_items : List Id) : List (Id × ℚ) :=
  if user_history.isEmpty then []
  else
    let history_indices := user_history.filterMap (fun b => idxIn m.book_id_map b)
    if history_indices.isEmpty then []
    else
      let user_profile := meanVec (history_indices.map (fun i => m.tfidf_matrix.getD i []))
      let similarities := m.tfidf_matrix.map (sim user_profile)
      let recommendations := (m.book_id_map.zip similarities).filter
        (fun p => decide (p.1 ∉ user_history) && decide (p.1 ∉ exclude_items))
      (recommendations.insertionSort leRec).take n_recommendations

/-- Claim C4 (confirmed): cold start returns an empty list, never an error:
a factor model's `predict` with a user id absent from the training index
returns `[]`, and the content model's `predict` with an empty history, or a
history none of whose ids resolve in the trained index, returns `[]` — for
every similarity kernel, every `n` and every exclude set. -/
theorem C4_cold_start_empty :
    (∀ (sim : List ℚ → List ℚ → ℚ) (m : FactorModel Id) (u : Id) (n : Nat)
        (exclude : List Id), u ∉ m.user_id_map →
        m.predict sim u n exclude = []) ∧
    (∀ (sim : List ℚ → List ℚ → ℚ) (m : TFIDFModel Id) (u : Id)
        (hist : List Id) (n : Nat) (exclude : List Id),
        hist = [] ∨ (∀ b ∈ hist, b ∉ m.book_id_map) →
        m.predict sim u hist n exclude = []) := by
  constructor
  · intro sim m u n exclude hu
    have h : idxIn m.user_id_map u = none := (idxIn_eq_none _ _).mpr hu
    simp [FactorModel.predict, h]
  · intro sim m u hist n exclude h
    rcases h with rfl | h
    · simp [TFIDFModel.predict]
    · unfold TFIDFModel.predict
      by_cases hh : hist.isEmpty
      · simp [hh]
      · have hfm : hist.filterMap (fun b => idxIn m.book_id_map b) = [] :=
          List.filterMap_eq_nil_iff.mpr
            (fun b hb => (idxIn_eq_none _ _).mpr (h b hb))
        simp [hh, hfm]

/-- Witness for `C4_cold_start_empty`: user 0 is unknown to a factor model
trained on user 1, and history `[4]` does not resolve in a content model
trained on book 3. -/
theorem C4_cold_start_empty_witness :
    FactorModel.predict dotSim (⟨[1], [2], [[1]], [[1]]⟩ : FactorModel ℕ)
      0 5 [] = [] ∧
    TFIDFModel.predict dotSim (⟨[3], [[1]]⟩ : TFIDFModel ℕ)
      0 [4] 5 [] = [] :=
  ⟨(@C4_cold_start_empty ℕ _).1 dotSim _ 0 5 [] (by decide),
   (@C4_cold_start_empty ℕ _).2 dotSim _ 0 [4] 5 [] (Or.inr (by decide))⟩

/-! ## Hybrid blender (`HybridRecommender.get_recommendations`) -/

/-- The per-item score dictionary `{'svd': 0, 'nmf': 0, 'tfidf': 0}` created
for each candidate in `all_recommendations`. -/
structure ModelScores where
  svd : ℚ
  nmf : ℚ
  tfidf : ℚ
deriving DecidableEq, Repr

/-- `self.weights['svd']` (0.35). -/
def weight_svd : ℚ := 35 / 100

/-- `self.weights['nmf']` (0.30). -/
def weight_nmf : ℚ := 30 / 100

/-- `self.weights['tfidf']` (0.25). -/
def weight_tfidf : ℚ := 25 / 100

/-- `self.weights['temporal']` (0.10) — present in the weight table but not
used by the blending formula in `get_recommendations`. -/
def weight_temporal : ℚ := 10 / 100

/-- One step of `all_recommendations` maintenance:
`if item_id not in all_recommendations: all_recommendations[item_id] = {...0}`
followed by setting one algorithm's field.  Python dicts preserve insertion
order, so an existing key keeps its position and a new key is appended. -/
def upsert [DecidableEq Id] (acc : List (Id × ModelScores)) (item : Id)
    (f : ModelScores → ModelScores) : List (Id × ModelScores) :=
  if acc.any (fun p => p.1 == item) then
    acc.map (fun p => if p.1 = item then (p.1, f p.2) else p)
  else acc ++ [(item, f ⟨0, 0, 0⟩)]

/-- The three accumulation loops of `get_recommendations` over the per-model
prediction lists.  `svd_recs`, `nmf_recs`, `tfidf_recs` are the outputs of
the three models' `predict` calls (`self.svd_model.predict(user_id, n*2,
exclude_items)` etc.); `hasSvd`/`hasNmf`/`hasTfidf` model the truthiness of
the optional model attributes and `hasHistory` the truthiness of
`user_history` in the `tfidf` guard. -/
def accumulate [DecidableEq Id] (variant : String)
    (hasSvd hasNmf hasTfidf hasHistory : Bool)
    (svd_recs nmf_recs tfidf_recs : List (Id × ℚ)) :
    List (Id × ModelScores) :=
  let a1 : List (Id × ModelScores) :=
    if (variant = "svd" ∨ variant = "hybrid") ∧ hasSvd = true then
      svd_recs.foldl (fun acc p => upsert acc p.1 (fun s => { s with svd := p.2 })) []
    else []
  let a2 :=
    if (variant = "nmf" ∨ variant = "hybrid") ∧ hasNmf = true then
      nmf_recs.foldl (fun acc p => upsert acc p.1 (fun s => { s with nmf := p.2 })) a1
    else a1
  if (variant = "tfidf" ∨ variant = "hybrid") ∧ hasTfidf = true ∧ hasHistory = true then
    tfidf_recs.foldl (fun acc p => upsert acc p.1 (fun s => { s with tfidf := p.2 })) a2
  else a2

/-- The per-candidate blending branch of `get_recommendations`: the weighted
combination for `'hybrid'`, the single model score for a single-model
variant, and the `'svd'` default branch otherwise. -/
def blendEntry (variant : String) (p : Id × ModelScores) : Id × ℚ × String :=
  if variant = "hybrid" then
    (p.1, p.2.svd * weight_svd + p.2.nmf * weight_nmf + p.2.tfidf * weight_tfidf,
      "hybrid")
  else if variant = "svd" then (p.1, p.2.svd, "svd")
  else if variant = "nmf" then (p.1, p.2.nmf, "nmf")
  else if variant = "tfidf" then (p.1, p.2.tfidf, "tfidf")
  else (p.1, p.2.svd, "svd")

/-- `final_recommendations` in candidate (dict insertion) order, before the
final sort and truncation. -/
def final_recommendations [DecidableEq Id] (variant : String)
    (hasSvd hasNmf hasTfidf hasHistory : Bool)
    (svd_recs nmf_recs tfidf_recs : List (Id × ℚ)) : List (Id × ℚ × String) :=
  (accumulate variant hasSvd hasNmf hasTfidf hasHistory
      svd_recs nmf_recs tfidf_recs).map (blendEntry variant)

/-- Comparator of the final `final_recommendations.sort(key=lambda x: x[1],
reverse=True)`. -/
def leRec3 : (Id × ℚ × String) → (Id × ℚ × String) → Prop :=
  fun a b => b.2.1 ≤ a.2.1

instance : DecidableRel (@leRec3 Id) :=
  fun a b => inferInstanceAs (Decidable (b.2.1 ≤ a.2.1))

/-- `HybridRecommender.get_recommendations` (returned value): blend, sort by
descending score, keep the top `n_recommendations`.  The trailing
`record_impression` call mutates only the A/B counters (modelled separately
by `record_impression` below) and does not affect the returned list. -/
def get_recommendations [DecidableEq Id] (variant : String)
    (hasSvd hasNmf hasTfidf hasHistory : Bool)
    (svd_recs nmf_recs tfidf_recs : List (Id × ℚ))
    (n_recommendations : Nat) : List (Id × ℚ × String) :=
  ((final_recommendations variant hasSvd hasNmf hasTfidf hasHistory
      svd_recs nmf_recs tfidf_recs).insertionSort leRec3).take n_recommendations

/-! ### Membership lemmas for the accumulation dictionary -/

omit [LinearOrder Id] in
theorem mem_upsert [DecidableEq Id] {acc : List (Id × ModelScores)} {j : Id}
    {f : ModelScores → ModelScores} {p : Id × ModelScores}
    (h : p ∈ upsert acc j f) :
    p ∈ acc ∨ (p.1 = j ∧ ((∃ s, (j, s) ∈ acc ∧ p.2 = f s) ∨ p = (j, f ⟨0, 0, 0⟩))) := by
  unfold upsert at h
  split_ifs at h with hany
  · obtain ⟨q, hq, hpq⟩ := List.mem_map.mp h
    by_cases hqj : q.1 = j
    · right
      rw [if_pos hqj] at hpq
      refine ⟨by rw [← hpq]; exact hqj, Or.inl ⟨q.2, ?_, by rw [← hpq]⟩⟩
      rw [← hqj]
      exact hq
    · left
      rw [if_neg hqj] at hpq
      exact hpq ▸ hq
  · rcases List.mem_append.mp h with h' | h'
    · exact Or.inl h'
    · right
      have hp : p = (j, f ⟨0, 0, 0⟩) := List.mem_singleton.mp h'
      exact ⟨by rw [hp], Or.inr hp⟩

omit [LinearOrder Id] in
theorem mem_keys_upsert [DecidableEq Id] {acc : List (Id × ModelScores)}
    {j : Id} {f : ModelScores → ModelScores} {i : Id} :
    i ∈ (upsert acc j f).map Prod.fst ↔ i ∈ acc.map Prod.fst ∨ i = j := by
  unfold upsert
  split_ifs with hany
  · have hkeys : (acc.map (fun p => if p.1 = j then (p.1, f p.2) else p)).map Prod.fst
        = acc.map Prod.fst := by
      rw [List.map_map]
      apply List.map_congr_left
      intro p _
      by_cases hp : p.1 = j <;> simp [hp]
    rw [hkeys]
    constructor
    · exact Or.inl
    · rintro (h | rfl)
      · exact h
      · obtain ⟨q, hq, hqi⟩ := List.any_eq_true.mp hany
        exact List.mem_map.mpr ⟨q, hq, eq_of_beq hqi⟩
  · simp only [List.map_append, List.map_cons, List.map_nil, List.mem_append,
      List.mem_singleton]

omit [LinearOrder Id] in
theorem mem_keys_fold [DecidableEq Id] (g : ModelScores → ℚ → ModelScores) :
    ∀ (recs : List (Id × ℚ)) (acc : List (Id × ModelScores)) (i : Id),
      (i ∈ (recs.foldl (fun a q => upsert a q.1 (fun s => g s q.2)) acc).map Prod.fst) ↔
      i ∈ acc.map Prod.fst ∨ i ∈ recs.map Prod.fst := by
  intro recs
  induction recs with
  | nil => intro acc i; simp
  | cons q rest ih =>
    intro acc i
    rw [List.foldl_cons, ih, mem_keys_upsert]
    simp only [List.map_cons, List.mem_cons]
    tauto

omit [LinearOrder Id] in
theorem mem_fold_of_not_key [DecidableEq Id] (g : ModelScores → ℚ → ModelScores) :
    ∀ (recs : List (Id × ℚ)) (acc : List (Id × ModelScores)) (p : Id × ModelScores),
      p ∈ recs.foldl (fun a q => upsert a q.1 (fun s => g s q.2)) acc →
      p.1 ∉ recs.map Prod.fst → p ∈ acc := by
  intro recs
  induction recs with
  | nil => intro acc p h _; simpa using h
  | cons q rest ih =>
    intro acc p h hnk
    simp only [List.map_cons, List.mem_cons, not_or] at hnk
    have hacc := ih (upsert acc q.1 (fun s => g s q.2)) p (by simpa using h) hnk.2
    rcases mem_upsert hacc with hmem | ⟨hpj, _⟩
    · exact hmem
    · exact absurd hpj hnk.1

omit [LinearOrder Id] in
theorem fold_upsert_preserves [DecidableEq Id] (π : ModelScores → ℚ)
    (g : ModelScores → ℚ → ModelScores)
    (hg : ∀ s q, π (g s q) = π s) (hz : π ⟨0, 0, 0⟩ = 0) (P : Id → Prop) :
    ∀ (recs : List (Id × ℚ)) (acc : List (Id × ModelScores)),
      (∀ p ∈ acc, P p.1 → π p.2 = 0) →
      ∀ p ∈ recs.foldl (fun a q => upsert a q.1 (fun s => g s q.2)) acc,
        P p.1 → π p.2 = 0 := by
  intro recs
  induction recs with
  | nil => intro acc hinv p hp; exact hinv p hp
  | cons q rest ih =>
    intro acc hinv p hp hP
    refine ih (upsert acc q.1 (fun s => g s q.2)) ?_ p (by simpa using hp) hP
    intro r hr hPr
    rcases mem_upsert hr with hmem | ⟨hrj, hcase⟩
    · exact hinv r hmem hPr
    · rcases hcase with ⟨s, hs, hr2⟩ | hr0
      · rw [hr2, hg]
        exact hinv (q.1, s) hs (hrj ▸ hPr)
      · rw [hr0]
        show π (g ⟨0, 0, 0⟩ q.2) = 0
        rw [hg]
        exact hz

omit [LinearOrder Id] in
/-- The `'hybrid'` variant with all three models present and a non-empty
history runs all three accumulation loops in order. -/
theorem accumulate_hybrid [DecidableEq Id] (s nm tf : List (Id × ℚ)) :
    accumulate "hybrid" true true true true s nm tf =
      tf.foldl (fun acc p => upsert acc p.1 (fun x => { x with tfidf := p.2 }))
        (nm.foldl (fun acc p => upsert acc p.1 (fun x => { x with nmf := p.2 }))
          (s.foldl (fun acc p => upsert acc p.1 (fun x => { x with svd := p.2 })) [])) := by
  simp [accumulate]

/-- Claim C3 (confirmed): for the `'hybrid'` variant, every accumulated
candidate is blended with score `svd*0.35 + nmf*0.30 + tfidf*0.25`; a model
that did not surface the item leaves that model's field at 0; and every item
surfaced by any of the three models appears among the blended candidates
(it is not dropped). -/
theorem C3_hybrid_weighted_blend (svd_recs nmf_recs tfidf_recs : List (Id × ℚ)) :
    (∀ p ∈ accumulate "hybrid" true true true true svd_recs nmf_recs tfidf_recs,
      blendEntry "hybrid" p =
        (p.1, p.2.svd * weight_svd + p.2.nmf * weight_nmf +
          p.2.tfidf * weight_tfidf, "hybrid") ∧
      (p.1 ∉ svd_recs.map Prod.fst → p.2.svd = 0) ∧
      (p.1 ∉ nmf_recs.map Prod.fst → p.2.nmf = 0) ∧
      (p.1 ∉ tfidf_recs.map Prod.fst → p.2.tfidf = 0)) ∧
    (∀ i : Id, i ∈ svd_recs.map Prod.fst ∨ i ∈ nmf_recs.map Prod.fst ∨
        i ∈ tfidf_recs.map Prod.fst →
      i ∈ (accumulate "hybrid" true true true true svd_recs nmf_recs
          tfidf_recs).map Prod.fst) ∧
    weight_svd = 35 / 100 ∧ weight_nmf = 30 / 100 ∧ weight_tfidf = 25 / 100 := by
  rw [accumulate_hybrid]
  have hA1svd : ∀ p ∈ svd_recs.foldl
      (fun acc p => upsert acc p.1 (fun x => { x with svd := p.2 })) [],
      p.1 ∉ svd_recs.map Prod.fst → p.2.svd = 0 := by
    intro p hp hnk
    exact absurd ((mem_keys_fold (fun x q => { x with svd := q }) svd_recs [] p.1).mp
      (List.mem_map_of_mem Prod.fst hp)) (by simpa using hnk)
  have hA1nmf : ∀ p ∈ svd_recs.foldl
      (fun acc p => upsert acc p.1 (fun x => { x with svd := p.2 })) [],
      p.2.nmf = 0 := by
    intro p hp
    exact fold_upsert_preserves (fun x => x.nmf) (fun x q => { x with svd := q })
      (fun _ _ => rfl) rfl (fun _ => True) svd_recs [] (by simp) p hp trivial
  have hA1tf : ∀ p ∈ svd_recs.foldl
      (fun acc p => upsert acc p.1 (fun x => { x with svd := p.2 })) [],
      p.2.tfidf = 0 := by
    intro p hp
    exact fold_upsert_preserves (fun x => x.tfidf) (fun x q => { x with svd := q })
      (fun _ _ => rfl) rfl (fun _ => True) svd_recs [] (by simp) p hp trivial
  have hA2svd : ∀ p ∈ nmf_recs.foldl
      (fun acc p => upsert acc p.1 (fun x => { x with nmf := p.2 }))
      (svd_recs.foldl (fun acc p => upsert acc p.1 (fun x => { x with svd := p.2 })) []),
      p.1 ∉ svd_recs.map Prod.fst → p.2.svd = 0 := by
    intro p hp
    exact fold_upsert_preserves (fun x => x.svd) (fun x q => { x with nmf := q })
      (fun _ _ => rfl) rfl (fun i => i ∉ svd_recs.map Prod.fst) nmf_recs _
      hA1svd p hp
  have hA2tf : ∀ p ∈ nmf_recs.foldl
      (fun acc p => upsert acc p.1 (fun x => { x with nmf := p.2 }))
      (svd_recs.foldl (fun acc p => upsert acc p.1 (fun x => { x with svd := p.2 })) []),
      p.2.tfidf = 0 := by
    intro p hp
    exact fold_upsert_preserves (fun x => x.tfidf) (fun x q => { x with nmf := q })
      (fun _ _ => rfl) rfl (fun _ => True) nmf_recs _ (fun r hr _ => hA1tf r hr) p hp trivial
  refine ⟨?_, ?_, rfl, rfl, rfl⟩
  · intro p hp
    refine ⟨by simp [blendEntry], ?_, ?_, ?_⟩
    · intro hnk
      exact fold_upsert_preserves (fun x => x.svd) (fun x q => { x with tfidf := q })
        (fun _ _ => rfl) rfl
        (fun i => i ∉ svd_recs.map Prod.fst) tfidf_recs _ hA2svd p hp hnk
    · intro hnk
      refine fold_upsert_preserves (fun x => x.nmf) (fun x q => { x with tfidf := q })
        (fun _ _ => rfl) rfl
        (fun i => i ∉ nmf_recs.map Prod.fst) tfidf_recs _ ?_ p hp hnk
      intro r hr hrnk
      exact hA1nmf r (mem_fold_of_not_key (fun x q => { x with nmf := q }) nmf_recs _ r hr hrnk)
    · intro hnk
      exact hA2tf p (mem_fold_of_not_key (fun x q => { x with tfidf := q }) tfidf_recs _ p hp hnk)
  · intro i hi
    rw [mem_keys_fold (fun x q => { x with tfidf := q }),
      mem_keys_fold (fun x q => { x with nmf := q }),
      mem_keys_fold (fun x q => { x with svd := q })]
    tauto

/-- Witness for `C3_hybrid_weighted_blend`: the fixture of the claim — model
scores svd 0.8, nmf 0.6, content 0.4 for a single item — blends to
0.8 × 0.35 + 0.6 × 0.30 + 0.4 × 0.25 = 0.56. -/
theorem C3_hybrid_weighted_blend_witness :
    blendEntry "hybrid" ((1 : ℕ), (⟨4 / 5, 3 / 5, 2 / 5⟩ : ModelScores)) =
      (1, (4 / 5 : ℚ) * weight_svd + (3 / 5 : ℚ) * weight_nmf +
        (2 / 5 : ℚ) * weight_tfidf, "hybrid") ∧
    (4 / 5 : ℚ) * weight_svd + (3 / 5 : ℚ) * weight_nmf +
      (2 / 5 : ℚ) * weight_tfidf = 56 / 100 := by
  have hmem : ((1 : ℕ), (⟨4 / 5, 3 / 5, 2 / 5⟩ : ModelScores)) ∈
      accumulate "hybrid" true true true true
        [((1 : ℕ), (4 / 5 : ℚ))] [(1, 3 / 5)] [(1, 2 / 5)] := by
    rw [accumulate_hybrid]
    norm_num [upsert]
  exact ⟨((C3_hybrid_weighted_blend [((1 : ℕ), (4 / 5 : ℚ))] [(1, 3 / 5)]
      [(1, 2 / 5)]).1 _ hmem).1, by norm_num [weight_svd, weight_nmf, weight_tfidf]⟩

/-! ## A/B testing framework (`ABTestingFramework`) -/

/-- Per-variant counter record, one entry of `self.variant_stats`. -/
structure VariantStats where
  impressions : Nat
  clicks : Nat
  conversions : Nat
deriving DecidableEq, Repr

/-- One entry of the dictionary returned by `get_variant_performance`. -/
structure PerfRecord where
  impressions : Nat
  clicks : Nat
  conversions : Nat
  ctr : ℚ
  conversion_rate : ℚ
deriving DecidableEq, Repr

/-- The default variant list `['svd', 'nmf', 'tfidf', 'hybrid']`
(`ABTestingFramework.__init__`, also `Config.AB_TEST_VARIANTS`). -/
def defaultVariants : List String := ["svd", "nmf", "tfidf", "hybrid"]

/-- `self.variant_stats = {variant: {'impressions': 0, 'clicks': 0,
'conversions': 0} for variant in self.variants}`. -/
def initStats (variants : List String) : List (String × VariantStats) :=
  variants.map (fun v => (v, ⟨0, 0, 0⟩))

/-- `record_impression`: increment one variant's impression counter.
(An unknown variant key would raise `KeyError` in Python; the model leaves
the stats unchanged in that unreachable case.) -/
def record_impression (stats : List (String × VariantStats))
    (variant : String) : List (String × VariantStats) :=
  stats.map (fun p => if p.1 = variant then
    (p.1, { p.2 with impressions := p.2.impressions + 1 }) else p)

/-- `record_click`: increment one variant's click counter. -/
def record_click (stats : List (String × VariantStats))
    (variant : String) : List (String × VariantStats) :=
  stats.map (fun p => if p.1 = variant then
    (p.1, { p.2 with clicks := p.2.clicks + 1 }) else p)

/-- `record_conversion`: increment one variant's conversion counter. -/
def record_conversion (stats : List (String × VariantStats))
    (variant : String) : List (String × VariantStats) :=
  stats.map (fun p => if p.1 = variant then
    (p.1, { p.2 with conversions := p.2.conversions + 1 }) else p)

/-- The per-variant body of `get_variant_performance`:
`impressions = stats['impressions'] or 1` (Python `or` replaces a zero count
with 1), then `ctr = clicks / impressions` and
`conversion_rate = conversions / impressions`, and the **replaced** value is
stored in the returned record's `impressions` field. -/
def perfEntry (p : String × VariantStats) : String × PerfRecord :=
  let impressions := if p.2.impressions = 0 then 1 else p.2.impressions
  (p.1, ⟨impressions, p.2.clicks, p.2.conversions,
    (p.2.clicks : ℚ) / (impressions : ℚ),
    (p.2.conversions : ℚ) / (impressions : ℚ)⟩)

/-- `get_variant_performance`: the per-variant performance dictionary. -/
def get_variant_performance (stats : List (String × VariantStats)) :
    List (String × PerfRecord) :=
  stats.map perfEntry

/-! ## C8: zero-impression variants in `get_variant_performance` -/

/-- Claim C8 (counterexample): the claim asserts a click-through-rate of 0
for **every** variant whose impression counter is 0, but a click can be
recorded before any impression (`record_click` does not touch impressions):
in that reachable state the divisor is 1 and the reported rate equals the
click count, here 1 ≠ 0. -/
theorem C8_zero_impressions_counterexample :
    (record_click (initStats defaultVariants) "svd").head? =
      some ("svd", ⟨0, 1, 0⟩) ∧
    (perfEntry ("svd", ⟨0, 1, 0⟩)).2.ctr = 1 ∧ (1 : ℚ) ≠ 0 := by
  refine ⟨by norm_num [record_click, initStats, defaultVariants], ?_, by norm_num⟩
  norm_num [perfEntry]

/-- Claim C8 (amended): for a variant whose impression counter is 0 the rate
divisor is replaced by 1, so no division by zero can occur and the reported
click-through-rate and conversion-rate equal the raw click and conversion
counts — in particular both rates are 0 whenever those counters are 0 (the
state of any variant that has received no events). -/
theorem C8_zero_impression_rates (v : String) (s : VariantStats)
    (h : s.impressions = 0) :
    (perfEntry (v, s)).2.ctr = (s.clicks : ℚ) ∧
    (perfEntry (v, s)).2.conversion_rate = (s.conversions : ℚ) ∧
    (s.clicks = 0 → (perfEntry (v, s)).2.ctr = 0) ∧
    (s.conversions = 0 → (perfEntry (v, s)).2.conversion_rate = 0) ∧
    (if s.impressions = 0 then 1 else s.impressions) ≠ 0 := by
  refine ⟨by simp [perfEntry, h], by simp [perfEntry, h], ?_, ?_, by simp [h]⟩
  · intro hc
    simp [perfEntry, h, hc]
  · intro hc
    simp [perfEntry, h, hc]

/-- Witness for `C8_zero_impression_rates`: a variant with all counters 0
reports both rates as 0 with a nonzero divisor. -/
theorem C8_zero_impression_rates_witness :
    (perfEntry ("svd", ⟨0, 0, 0⟩)).2.ctr = ((0 : ℕ) : ℚ) ∧
    (perfEntry ("svd", ⟨0, 0, 0⟩)).2.conversion_rate = ((0 : ℕ) : ℚ) ∧
    ((0 : ℕ) = 0 → (perfEntry ("svd", ⟨0, 0, 0⟩)).2.ctr = 0) ∧
    ((0 : ℕ) = 0 → (perfEntry ("svd", ⟨0, 0, 0⟩)).2.conversion_rate = 0) ∧
    (if (0 : ℕ) = 0 then 1 else (0 : ℕ)) ≠ 0 :=
  C8_zero_impression_rates "svd" ⟨0, 0, 0⟩ rfl

/-! ## C10: the reported impressions field -/

/-- Claim C10 (confirmed): for a variant whose stored impression counter is
0, `get_variant_performance` reports the `impressions` field as 1 — the
zero-impression guard replaces the stored value before it is placed in the
returned record — while `clicks` and `conversions` are reported with their
true counts; 1 is not the true count 0. -/
theorem C10_impressions_reported_as_one (stats : List (String × VariantStats))
    (v : String) (s : VariantStats) (hmem : (v, s) ∈ stats)
    (h : s.impressions = 0) :
    (v, (⟨1, s.clicks, s.conversions, (s.clicks : ℚ), (s.conversions : ℚ)⟩ :
      PerfRecord)) ∈ get_variant_performance stats ∧ (1 : ℕ) ≠ 0 := by
  constructor
  · have hentry : perfEntry (v, s) =
        (v, ⟨1, s.clicks, s.conversions, (s.clicks : ℚ), (s.conversions : ℚ)⟩) := by
      simp [perfEntry, h]
    exact hentry ▸ List.mem_map_of_mem perfEntry hmem
  · norm_num

/-- Witness for `C10_impressions_reported_as_one`: the `'svd'` variant of a
freshly initialised framework (0 stored impressions) is reported with
`impressions = 1`. -/
theorem C10_impressions_reported_as_one_witness :
    ("svd", (⟨1, 0, 0, ((0 : ℕ) : ℚ), ((0 : ℕ) : ℚ)⟩ : PerfRecord)) ∈
      get_variant_performance (initStats defaultVariants) ∧ (1 : ℕ) ≠ 0 :=
  C10_impressions_reported_as_one _ "svd" ⟨0, 0, 0⟩
    (by norm_num [initStats, defaultVariants]) rfl

/-! ## C7: variant assignment (`ABTestingFramework.assign_variant`) -/

/-- Model of Python's built-in `hash(str(user_id))` used by
`assign_variant`.  CPython hashes `str` objects with SipHash keyed by a
random per-process salt (hash randomisation, `PYTHONHASHSEED`): the value is
deterministic within one interpreter process but not across processes.  The
salt is therefore an explicit parameter; the exact mixing function is
irrelevant to the claims, which depend only on determinism for a fixed salt
and on salt-dependence across processes.  Values are reduced modulo Python's
hash modulus 2^61 − 1.  User ids are taken as integers (an opaque encoding
of the id string). -/
def pyHash (salt : ℤ) (user_id : ℤ) : ℤ :=
  (salt * 31 + user_id) % (2 ^ 61 - 1)

/-- `ABTestingFramework` state: the frozen variant list, the per-process
hash salt, and the mutable counters. -/
structure ABState where
  variants : List String
  hashSalt : ℤ
  stats : List (String × VariantStats)

/-- `assign_variant`: `hash_value = hash(str(user_id))`;
`variant_idx = hash_value % len(self.variants)`;
`return self.variants[variant_idx]`.  Python's `%` with a positive divisor
is non-negative, matching `Int.emod`; the `getD` default is unreachable for
a non-empty variant list (Python would raise on an empty one). -/
def assign_variant (st : ABState) (user_id : ℤ) : String :=
  let hash_value := pyHash st.hashSalt user_id
  let variant_idx := hash_value % (st.variants.length : ℤ)
  st.variants.getD variant_idx.toNat ""

/-- Claim C7 (counterexample): the claim asserts stability of the assignment
across process restarts, but the built-in string hash is salted per process:
the same user id 1 with the same default variant list is assigned `'nmf'`
under one process salt (0) and `'svd'` under another (1). -/
theorem C7_restart_stability_counterexample :
    assign_variant ⟨defaultVariants, 0, initStats defaultVariants⟩ 1 = "nmf" ∧
    assign_variant ⟨defaultVariants, 1, initStats defaultVariants⟩ 1 = "svd" ∧
    ("nmf" : String) ≠ "svd" := by
  refine ⟨?_, ?_, by decide⟩
  · norm_num [assign_variant, pyHash, defaultVariants]
  · norm_num [assign_variant, pyHash, defaultVariants]

/-- Claim C7 (amended): within one process (fixed hash salt),
`assign_variant` is a deterministic pure function of the user id and the
variant list — it reads nothing but the salt and `self.variants`, in
particular not the mutable counters — so repeated calls with the same id and
the same variant set return the same variant, and the result is an element
of the variant list (the hash of the id modulo the variant count selects the
index).  Stability across process restarts does not hold, because the
built-in string hash is salted per process. -/
theorem C7_assign_variant_deterministic (st₁ st₂ : ABState) (u : ℤ)
    (hv : st₁.variants = st₂.variants) (hs : st₁.hashSalt = st₂.hashSalt) :
    assign_variant st₁ u = assign_variant st₂ u ∧
    (st₁.variants ≠ [] → assign_variant st₁ u ∈ st₁.variants) := by
  constructor
  · simp [assign_variant, hv, hs]
  · intro hne
    have hlen : 0 < st₁.variants.length := List.length_pos.mpr hne
    have hnn : 0 ≤ pyHash st₁.hashSalt u % (st₁.variants.length : ℤ) :=
      Int.emod_nonneg _ (by exact_mod_cast hlen.ne')
    have hlt : pyHash st₁.hashSalt u % (st₁.variants.length : ℤ) <
        (st₁.variants.length : ℤ) := Int.emod_lt_of_pos _ (by exact_mod_cast hlen)
    have hidx : (pyHash st₁.hashSalt u % (st₁.variants.length : ℤ)).toNat <
        st₁.variants.length := by omega
    unfold assign_variant
    rw [List.getD_eq_getElem _ _ hidx]
    exact List.getElem_mem hidx

/-- Witness for `C7_assign_variant_deterministic`: two framework states with
the same variants and salt but different counter states (one fresh, one
after a recorded click) assign user 7 identically, and the assignment is a
declared variant. -/
theorem C7_assign_variant_deterministic_witness :
    assign_variant ⟨defaultVariants, 5, initStats defaultVariants⟩ 7 =
      assign_variant ⟨defaultVariants, 5,
        record_click (initStats defaultVariants) "svd"⟩ 7 ∧
    (defaultVariants ≠ [] →
      assign_variant ⟨defaultVariants, 5, initStats defaultVariants⟩ 7 ∈
        defaultVariants) :=
  C7_assign_variant_deterministic _ _ 7 rfl rfl

/-! ## C9: `HybridRecommender.explain_recommendation` -/

/-- The explanation dictionary returned by `explain_recommendation`
(`item_id`, `reasons`, `confidence`). -/
structure Explanation (Id : Type) where
  item_id : Id
  reasons : List String
  confidence : ℚ
deriving DecidableEq, Repr

/-- `HybridRecommender.explain_recommendation`.  Despite the comment
"Check each model's contribution", the method consults **only**
`self.svd_model` (`if self.svd_model:`): the NMF and content models are
parameters of the recommender but are never read here, so they appear as
unused arguments.  When the SVD model is present, `svd_score` is the score
paired with `item_id` in `self.svd_model.predict(user_id, 100)` (default 0
via `next(..., 0)`); a reason is attached and the score recorded only when
`svd_score > 0`; the confidence is `np.mean` of the recorded scores — the
single SVD score, or 0 when none was recorded.  The reason string's
interpolated numeric score is elided. -/
def explain_recommendation (sim : List ℚ → List ℚ → ℚ)
    (svd_model nmf_model : Option (FactorModel Id))
    (tfidf_model : Option (TFIDFModel Id)) (item_id user_id : Id) :
    Explanation Id :=
  match svd_model with
  | none => ⟨item_id, [], 0⟩
  | some m =>
    let svd_recs := m.predict sim user_id 100 []
    let svd_score :=
      (((svd_recs.find? (fun p => p.1 == item_id)).map (·.2)).getD 0 : ℚ)
    if 0 < svd_score then
      ⟨item_id, ["Users with similar taste enjoyed this book"], svd_score⟩
    else ⟨item_id, [], 0⟩

/-- Claim C9 (code bug): `explain_recommendation` reconstructs only the SVD
contribution.  Failing input: no SVD model, an NMF model that scores item 3
for user 7 strictly positively (score 1).  The claim requires the NMF
contribution to be reported with a reason and a positive confidence; the
code returns no reasons and confidence 0 because it never consults the NMF
or content models. -/
theorem C9_explain_ignores_nmf_and_content :
    (∃ p ∈ FactorModel.predict dotSim
        (⟨[7], [3], [[1]], [[1]]⟩ : FactorModel ℕ) 7 100 [], p.1 = 3 ∧ 0 < p.2) ∧
    explain_recommendation dotSim none
      (some (⟨[7], [3], [[1]], [[1]]⟩ : FactorModel ℕ)) none 3 7 =
      ⟨3, [], 0⟩ := by
  constructor
  · refine ⟨(3, 1), ?_, rfl, by norm_num⟩
    norm_num [FactorModel.predict, idxIn, dotSim, List.insertionSort,
      List.orderedInsert]
  · rfl
